import Mathlib

/-!
Verification of the SAHAL money-transfer tracker core pipeline.

The development shallowly embeds, over `List Char`, the pipeline of
`sahal_improved.py` (cleaning, block splitting, date extraction,
transaction classification, summary statistics), the aggregation of
`sahal_dashboard.py` (`group_transactions`), and the unguarded extraction
loop of `sahal_grouped.py` (`extract_transactions`).

Python regular expressions are embedded as executable matchers on
`List Char` that follow the search/backtracking semantics of the concrete
patterns in the source (leftmost search position wins; lazy `.*?` and
`(.+?)` take the shortest completion; a greedy character class followed by
a literal that overlaps the class in no character commits to the maximal
run).  Python `float` values for parsed monetary amounts are embedded as
exact rationals (`ℚ`); the decimal strings matched by the amount patterns
are represented exactly.  The file `sahal_improved.py` literally contains
the character U+8DEF (a mojibake form of the middle dot) as the separator
inside its date patterns; the embedding keeps that literal character.
-/

/- The Batteries rational-number operations are `@[irreducible]`, which
blocks `decide` on concrete pipeline runs; lift that for this file so that
concrete monetary amounts evaluate. -/
unseal Rat.add Rat.mul Rat.sub Rat.inv

set_option maxRecDepth 8000

namespace Sahal

/-- Whitespace characters: the model of Python `str.strip` whitespace and of
the regex class `\s`, restricted to the whitespace characters that can occur
in this development (ASCII whitespace, NBSP, and the narrow no-break space
U+202F that the source patterns mention explicitly). -/
def isSpaceChar (c : Char) : Bool :=
  c = ' ' || c = '\t' || c = '\n' || c = '\r' || c = '\x0b' || c = '\x0c' ||
  c = '\u00A0' || c = '\u202F'

/-- Drop trailing whitespace, i.e. the right half of Python `str.strip`. -/
def stripR (cs : List Char) : List Char :=
  (cs.reverse.dropWhile isSpaceChar).reverse

/-- Python `str.strip()`: drop leading then trailing whitespace. -/
def pyStrip (cs : List Char) : List Char :=
  stripR (cs.dropWhile isSpaceChar)

/-- Match a literal character sequence at the current position, returning the
remainder of the input after the literal. -/
def matchLit : List Char → List Char → Option (List Char)
  | [], cs => some cs
  | _ :: _, [] => none
  | l :: ls, c :: cs => if c = l then matchLit ls cs else none

/-- The `re.search` position scan: try the position matcher at every start
position from left to right (including the final empty position) and return
the first success. -/
def searchFrom (f : List Char → Option α) : List Char → Option α
  | [] => f []
  | c :: cs =>
    match f (c :: cs) with
    | some r => some r
    | none => searchFrom f cs

/-- Numeric value of a decimal digit character. -/
def digitVal (c : Char) : Nat := c.toNat - 48

/-- Match exactly `n` decimal digits (regex `\d{n}`), accumulating their
numeric value into `acc`. -/
def matchDigitsExact : Nat → Nat → List Char → Option (Nat × List Char)
  | 0, acc, cs => some (acc, cs)
  | _ + 1, _, [] => none
  | n + 1, acc, c :: cs =>
    if c.isDigit then matchDigitsExact n (10 * acc + digitVal c) cs else none

/-- Try an ordered alternation of literals (the regex groups
`(Monday|...|Sunday)` and `(January|...|December)`), returning the numeric
tag of the first literal that matches together with the remainder. -/
def tryTable : List (List Char × Nat) → List Char → Option (Nat × List Char)
  | [], _ => none
  | (lit, n) :: rest, cs =>
    match matchLit lit cs with
    | some r => some (n, r)
    | none => tryTable rest cs

/-- The weekday alternation of both the banner-removal pattern and date
pattern 1 of `sahal_improved.py`, in source order. -/
def weekday_table : List (List Char × Nat) :=
  [(("Monday").toList, 1), (("Tuesday").toList, 2), (("Wednesday").toList, 3),
   (("Thursday").toList, 4), (("Friday").toList, 5), (("Saturday").toList, 6),
   (("Sunday").toList, 7)]

/-- The month alternation of date pattern 1, in source order, tagged with the
month number that `month_map` in `parse_date_from_text` assigns to each
name (the regex makes a `KeyError` in that lookup unreachable). -/
def month_table : List (List Char × Nat) :=
  [(("January").toList, 1), (("February").toList, 2), (("March").toList, 3),
   (("April").toList, 4), (("May").toList, 5), (("June").toList, 6),
   (("July").toList, 7), (("August").toList, 8), (("September").toList, 9),
   (("October").toList, 10), (("November").toList, 11), (("December").toList, 12)]

/-- Captures of the shared time tail `\d{4} 路 \d{1,2}:\d{2}(?: |\s)?(?:AM|PM)`
that ends both the banner-removal pattern of `clean_input` and date pattern 1
of `parse_date_from_text` in `sahal_improved.py`. -/
structure TimeGroups where
  year : Nat
  hour : Nat
  minute : Nat
  isPM : Bool
  rest : List Char
deriving DecidableEq

/-- The alternation `(?:AM|PM)` / capture `(AM|PM)`. -/
def matchAMPM (cs : List Char) : Option (Bool × List Char) :=
  match matchLit (("AM").toList) cs with
  | some r => some (false, r)
  | none =>
    match matchLit (("PM").toList) cs with
    | some r => some (true, r)
    | none => none

/-- Pattern segment `(?: |\s)?(?:AM|PM)`: the optional separator is greedy, so the
branch that consumes a separator character is tried first and the branch
without it is the backtracking fallback. -/
def matchSepOptAMPM (cs : List Char) : Option (Bool × List Char) :=
  match cs with
  | c :: r =>
    if c = '\u202F' || isSpaceChar c then
      match matchAMPM r with
      | some p => some p
      | none => matchAMPM cs
    else matchAMPM cs
  | [] => matchAMPM cs

/-- One backtracking branch of `\d{1,2}:\d{2}(?: |\s)?(?:AM|PM)` with a
fixed digit count `n` for the hour. -/
def hmBranch (n : Nat) (cs : List Char) : Option (Nat × Nat × Bool × List Char) :=
  (matchDigitsExact n 0 cs).bind fun (h, r1) =>
  (matchLit ([':']) r1).bind fun r2 =>
  (matchDigitsExact 2 0 r2).bind fun (mi, r3) =>
  (matchSepOptAMPM r3).map fun (pm, r4) => (h, mi, pm, r4)

/-- Pattern segment `\d{1,2}:\d{2}(?: |\s)?(?:AM|PM)`: the greedy `\d{1,2}` tries two
digits first and backtracks to one. -/
def matchHMTail (cs : List Char) : Option (Nat × Nat × Bool × List Char) :=
  match hmBranch 2 cs with
  | some r => some r
  | none => hmBranch 1 cs

/-- The shared time tail `\d{4} 路 \d{1,2}:\d{2}(?: |\s)?(?:AM|PM)`
(the separator is the literal character U+8DEF found in the source file). -/
def timeTail (cs : List Char) : Option TimeGroups :=
  (matchDigitsExact 4 0 cs).bind fun (y, r1) =>
  (matchLit ((" 路 ").toList) r1).bind fun r2 =>
  (matchHMTail r2).map fun (h, mi, pm, r4) => ⟨y, h, mi, pm, r4⟩

/-- The lazy segment `.*?` of the banner pattern followed by the time tail:
try the tail at the current position first, otherwise consume one
non-newline character (`.` does not match a newline) and retry.  Returns the
remainder of the input after the whole match. -/
def lazyTime : List Char → Option (List Char)
  | [] => none
  | c :: cs =>
    match timeTail (c :: cs) with
    | some g => some g.rest
    | none => if c = '\n' then none else lazyTime cs

/-- Match, at the current position, the banner pattern that `clean_input`
of `sahal_improved.py` substitutes away:
`(Monday|...|Sunday), .*?\d{4} 路 \d{1,2}:\d{2}(?: |\s)?(?:AM|PM)`.
Returns the remainder of the input after the match. -/
def bannerMatchAt (cs : List Char) : Option (List Char) :=
  (tryTable weekday_table cs).bind fun (_, r1) =>
  (matchLit ((", ").toList) r1).bind fun r2 =>
  lazyTime r2

/-- The substitution `re.sub(banner, '', text)`: scan left to right; at each position remove a
banner match and continue after it, otherwise keep the character.  The fuel
argument starts at the length of the input; every match consumes at least
one character, so the fuel never runs out on the start value. -/
def bannerSubAux : Nat → List Char → List Char
  | 0, cs => cs
  | _ + 1, [] => []
  | fuel + 1, c :: cs =>
    match bannerMatchAt (c :: cs) with
    | some rest => bannerSubAux fuel rest
    | none => c :: bannerSubAux fuel cs

/-- The `re.sub` of the banner pattern by the empty string. -/
def bannerSub (cs : List Char) : List Char := bannerSubAux cs.length cs

/-- Embeds `SAHALTransactionParser.clean_input`: empty input maps to the empty
string, otherwise substitute away banner matches and strip the result. -/
def clean_input (text : List Char) : List Char :=
  if text = [] then [] else pyStrip (bannerSub text)

/-- Holds (as `true`) iff no start position of the text carries a banner-pattern match. -/
def noBannerIn : List Char → Bool
  | [] => true
  | c :: cs => (bannerMatchAt (c :: cs)).isNone && noBannerIn cs

/-- Captures of date pattern 1 of `parse_date_from_text` (the weekday capture
is never used by the source, so it is not retained). -/
structure Date1Groups where
  month : Nat
  day : Nat
  time : TimeGroups
deriving DecidableEq

/-- One backtracking branch of `(\d{1,2}), ` followed by the time tail, with
a fixed digit count `n` for the day group. -/
def dayBranch (n : Nat) (cs : List Char) : Option (Nat × TimeGroups) :=
  (matchDigitsExact n 0 cs).bind fun (d, r1) =>
  (matchLit ((", ").toList) r1).bind fun r2 =>
  (timeTail r2).map fun g => (d, g)

/-- Pattern segment `(\d{1,2}), ` then the time tail: greedy day, two digits tried first. -/
def dayTimePart (cs : List Char) : Option (Nat × TimeGroups) :=
  match dayBranch 2 cs with
  | some r => some r
  | none => dayBranch 1 cs

/-- Match, at the current position, date pattern 1 of `sahal_improved.py`:
`(Monday|...), (January|...) (\d{1,2}), (\d{4}) 路 (\d{1,2}):(\d{2})(?: |\s)?(AM|PM)`. -/
def date1MatchAt (cs : List Char) : Option Date1Groups :=
  (tryTable weekday_table cs).bind fun (_, r1) =>
  (matchLit ((", ").toList) r1).bind fun r2 =>
  (tryTable month_table r2).bind fun (m, r3) =>
  (matchLit ([' ']) r3).bind fun r4 =>
  (dayTimePart r4).map fun (d, g) => ⟨m, d, g⟩

/-- Captures of date pattern 2, `Tar: (\d{1,2})/(\d{1,2})/(\d{2}) (\d{1,2}):(\d{2}):(\d{2})`. -/
structure TarGroups where
  day : Nat
  month : Nat
  yy : Nat
  hour : Nat
  minute : Nat
  second : Nat
deriving DecidableEq

/-- Pattern segment `(\d{1,2})` followed by a one-character delimiter and a continuation:
the greedy group tries two digits first and backtracks to one. -/
def d12 (delim : Char) (cont : Nat → List Char → Option α) (cs : List Char) : Option α :=
  match (matchDigitsExact 2 0 cs).bind fun (v, r) =>
        (matchLit ([delim]) r).bind fun r2 => cont v r2 with
  | some x => some x
  | none =>
    (matchDigitsExact 1 0 cs).bind fun (v, r) =>
    (matchLit ([delim]) r).bind fun r2 => cont v r2

/-- Match, at the current position, date pattern 2 of `sahal_improved.py`:
`Tar: (\d{1,2})/(\d{1,2})/(\d{2}) (\d{1,2}):(\d{2}):(\d{2})`. -/
def tarMatchAt (cs : List Char) : Option TarGroups :=
  (matchLit (("Tar: ").toList) cs).bind fun r0 =>
  d12 '/' (fun d r1 =>
    d12 '/' (fun mo r2 =>
      (matchDigitsExact 2 0 r2).bind fun (yy, r3) =>
      (matchLit ([' ']) r3).bind fun r4 =>
      d12 ':' (fun h r5 =>
        (matchDigitsExact 2 0 r5).bind fun (mi, r6) =>
        (matchLit ([':']) r6).bind fun r7 =>
        (matchDigitsExact 2 0 r7).map fun (s, _) => ⟨d, mo, yy, h, mi, s⟩) r4) r1) r0

/-- Whether a year is a leap year, as the Gregorian rule used by Python
`datetime`. -/
def isLeap (y : Nat) : Bool := y % 4 = 0 && (y % 100 ≠ 0 || y % 400 = 0)

/-- Days in a month, as validated by the Python `datetime` constructor. -/
def month_days (y m : Nat) : Nat :=
  if m = 2 then (if isLeap y then 29 else 28)
  else if m = 4 || m = 6 || m = 9 || m = 11 then 30
  else 31

/-- The embedded `datetime.datetime` value (second defaults to 0 when the
source omits it). -/
structure PyDatetime where
  year : Nat
  month : Nat
  day : Nat
  hour : Nat
  minute : Nat
  second : Nat
deriving DecidableEq

/-- The fallible `datetime(...)` constructor: out-of-range calendar values
raise `ValueError` in Python, embedded as `none`. -/
def datetime? (y mo d h mi s : Nat) : Option PyDatetime :=
  if 1 ≤ y ∧ y ≤ 9999 ∧ 1 ≤ mo ∧ mo ≤ 12 ∧ 1 ≤ d ∧ d ≤ month_days y mo ∧
     h ≤ 23 ∧ mi ≤ 59 ∧ s ≤ 59
  then some ⟨y, mo, d, h, mi, s⟩ else none

/-- The 12-hour to 24-hour conversion of `parse_date_from_text`:
`if PM and hour != 12: hour += 12 elif AM and hour == 12: hour = 0`. -/
def convert12 (hour : Nat) (isPM : Bool) : Nat :=
  if isPM = true then (if hour ≠ 12 then hour + 12 else hour)
  else (if hour = 12 then 0 else hour)

/-- Build the `datetime` of a date-pattern-1 match, as lines 69-82 of
`sahal_improved.py` (month from `month_map`, hour converted from 12-hour
clock, second 0). -/
def mkDate1 (g : Date1Groups) : Option PyDatetime :=
  datetime? g.time.year g.month g.day (convert12 g.time.hour g.time.isPM) g.time.minute 0

/-- Build the `datetime` of a date-pattern-2 match (`full_year = 2000 + int(year)`). -/
def mkTar (g : TarGroups) : Option PyDatetime :=
  datetime? (2000 + g.yy) g.month g.day g.hour g.minute g.second

/-- The date-pattern-2 branch of `parse_date_from_text`: search for the
`Tar:` pattern and build its datetime, `none` on search or construction
failure. -/
def tar_only_date (text : List Char) : Option PyDatetime :=
  match searchFrom tarMatchAt text with
  | some g => mkTar g
  | none => none

/-- Embeds `SAHALTransactionParser.parse_date_from_text`: empty text yields no
date; otherwise try date pattern 1 and, when its search or its `datetime`
construction fails (a swallowed `ValueError`), fall through to the `Tar:`
pattern; `none` when both fail. -/
def parse_date_from_text (text : List Char) : Option PyDatetime :=
  if text = [] then none
  else
    match searchFrom date1MatchAt text with
    | some g =>
      match mkDate1 g with
      | some dt => some dt
      | none => tar_only_date text
    | none => tar_only_date text

/-! ### Amount parsing and validation -/

/-- Character class `[\d.]` of the amount capture groups. -/
def isAmtChar (c : Char) : Bool := c.isDigit || c = '.'

/-- Numeric value of a digit string. -/
def digitsToNat (ds : List Char) : Nat :=
  ds.foldl (fun a c => 10 * a + digitVal c) 0

/-- Python `float(s)` for the strings this pipeline feeds it, embedded into
exact rationals: an optional sign followed by `digits`, `digits.digits`,
`digits.` or `.digits`; anything else (in particular `"."`, `""` and strings
with two dots) raises `ValueError`, embedded as `none`.  Exponent, infinity,
nan and surrounding-whitespace forms of Python `float` are not representable
by the `[\d.]+` amount captures nor used by the spec examples, so they are
outside the model.  The returned rational is the exact decimal value;
Python's `float` additionally rounds it to binary64, i.e. computes
`fl (pyFloat s)` in terms of the rounding model below — the two agree on
every amount string appearing in this development's theorems (all exactly
representable), and the binary64 model is used wherever the distinction
matters (the aggregation counterexamples). -/
def pyFloat (cs : List Char) : Option ℚ :=
  let signBody : Bool × List Char :=
    match cs with
    | '-' :: r => (true, r)
    | '+' :: r => (false, r)
    | r => (false, r)
  let body := signBody.2
  let ip := body.takeWhile Char.isDigit
  let rest := body.dropWhile Char.isDigit
  let val? : Option ℚ :=
    match rest with
    | [] => if ip.isEmpty then none else some ((digitsToNat ip : ℚ))
    | '.' :: r2 =>
      let fp := r2.takeWhile Char.isDigit
      let r3 := r2.dropWhile Char.isDigit
      if r3.isEmpty then
        if ip.isEmpty && fp.isEmpty then none
        else some ((digitsToNat ip : ℚ) + (digitsToNat fp : ℚ) / ((10 : ℚ) ^ fp.length))
      else none
    | _ => none
  val?.map fun v => if signBody.1 then -v else v

/-- Embeds `SAHALTransactionParser.validate_amount`: parse the amount string as a
decimal and reject non-positive values; `none` on parse failure or value
at most zero. -/
def validate_amount (cs : List Char) : Option ℚ :=
  match pyFloat cs with
  | none => none
  | some a => if a ≤ 0 then none else some a

/-- Embeds `SAHALTransactionParser.validate_phone_number`, i.e.
`re.match(r'^\d{9,}$', phone)`: at least nine characters, all digits.  (The
regex `$` would also accept one trailing newline, which no digit capture can
produce, so it is outside the model.) -/
def validate_phone_number (cs : List Char) : Bool :=
  9 ≤ cs.length && cs.all Char.isDigit

/-! ### The four transaction patterns of `sahal_improved.py` -/

/-- Greedy `([\d.]+)`: the maximal run of amount characters.  In every
pattern the group is followed by a literal space, which `[\d.]` cannot
match, so regex backtracking can never shorten the run and the maximal run
is the committed capture. -/
def amountCap (cs : List Char) : Option (List Char × List Char) :=
  let run := cs.takeWhile isAmtChar
  if run.isEmpty then none else some (run, cs.dropWhile isAmtChar)

/-- Greedy `(\d{9,})` at the end of a pattern: the maximal digit run, of
length at least nine. -/
def phoneCap (cs : List Char) : Option (List Char × List Char) :=
  let run := cs.takeWhile Char.isDigit
  if 9 ≤ run.length then some (run, cs.dropWhile Char.isDigit) else none

/-- Scan to the next `'('` (zero or more interior characters, none of which
may be a newline, since `.` does not match one), capturing the characters
before it. -/
def scanToParen : List Char → Option (List Char × List Char)
  | [] => none
  | c :: cs =>
    if c = '(' then some ([], cs)
    else if c = '\n' then none
    else (scanToParen cs).map fun (nm, r) => (c :: nm, r)

/-- Lazy `(.+?)\(`: at least one non-newline character, then the first
following `'('`. -/
def lazyCapParen : List Char → Option (List Char × List Char)
  | [] => none
  | c :: cs =>
    if c = '\n' then none
    else (scanToParen cs).map fun (nm, r) => (c :: nm, r)

/-- Body of pattern 1 after `\$ ?`: `([\d.]+) ayaad u dirtay (.+?)\(`,
returning (amount capture, name capture). -/
def p1Body (cs : List Char) : Option (List Char × List Char) :=
  (amountCap cs).bind fun (am, r1) =>
  (matchLit ((" ayaad u dirtay ").toList) r1).bind fun r2 =>
  (lazyCapParen r2).map fun (nm, _) => (am, nm)

/-- Segment `\$ ?` of pattern 1: the greedy optional space tries the branch with the
space first and falls back to the branch without it. -/
def p1Dollar (rest : List Char) : Option (List Char × List Char) :=
  match rest with
  | c :: r =>
    if c = ' ' then
      match p1Body r with
      | some x => some x
      | none => p1Body rest
    else p1Body rest
  | [] => p1Body rest

/-- Pattern 1 at the current position: `\$ ?([\d.]+) ayaad u dirtay (.+?)\(`. -/
def p1At (cs : List Char) : Option (List Char × List Char) :=
  match cs with
  | c :: rest => if c = '$' then p1Dollar rest else none
  | [] => none

/-- Pattern 2 at the current position: `Waxaad \$([\d.]+) ugu shubtay (\d{9,})`. -/
def p2At (cs : List Char) : Option (List Char × List Char) :=
  (matchLit (("Waxaad $").toList) cs).bind fun r1 =>
  (amountCap r1).bind fun (am, r2) =>
  (matchLit ((" ugu shubtay ").toList) r2).bind fun r3 =>
  (phoneCap r3).map fun (ph, _) => (am, ph)

/-- Pattern 3 at the current position: `Waxaad \$([\d.]+) ka heshay (.+?)\(`. -/
def p3At (cs : List Char) : Option (List Char × List Char) :=
  (matchLit (("Waxaad $").toList) cs).bind fun r1 =>
  (amountCap r1).bind fun (am, r2) =>
  (matchLit ((" ka heshay ").toList) r2).bind fun r3 =>
  (lazyCapParen r3).map fun (nm, _) => (am, nm)

/-- Pattern 4 at the current position:
`You have received airtime of \$([\d.]+) from (\d{9,})`. -/
def p4At (cs : List Char) : Option (List Char × List Char) :=
  (matchLit (("You have received airtime of $").toList) cs).bind fun r1 =>
  (amountCap r1).bind fun (am, r2) =>
  (matchLit ((" from ").toList) r2).bind fun r3 =>
  (phoneCap r3).map fun (ph, _) => (am, ph)

/-! ### Classification -/

/-- Transaction direction. -/
inductive TxType where
  | sent
  | received
deriving DecidableEq

/-- Transaction category.  `business` is produced only by the extra dashboard
patterns; the shared aggregation code treats it through its `else` branch. -/
inductive TxCategory where
  | person
  | airtime
  | business
deriving DecidableEq

/-- One entry of `SAHALTransactionParser.transaction_patterns`: a pattern
matcher together with the transaction type and category of the rule. -/
structure Rule where
  matchAt : List Char → Option (List Char × List Char)
  txType : TxType
  category : TxCategory

/-- The core fields of a classified transaction (the fields consumed by the
aggregator). -/
structure TxCore where
  txType : TxType
  name : List Char
  amount : ℚ
  category : TxCategory
deriving DecidableEq

/-- Rule 1: sent money to person. -/
def rule1 : Rule := ⟨p1At, TxType.sent, TxCategory.person⟩

/-- Rule 2: sent airtime to phone number. -/
def rule2 : Rule := ⟨p2At, TxType.sent, TxCategory.airtime⟩

/-- Rule 3: received money from person. -/
def rule3 : Rule := ⟨p3At, TxType.received, TxCategory.person⟩

/-- Rule 4: received airtime from phone number. -/
def rule4 : Rule := ⟨p4At, TxType.received, TxCategory.airtime⟩

/-- Embeds `SAHALTransactionParser.transaction_patterns`, in source order. -/
def transaction_patterns : List Rule := [rule1, rule2, rule3, rule4]

/-- One iteration of the pattern loop of `extract_transactions` (lines
136-161 of `sahal_improved.py`): search the block for the rule's pattern,
strip the name capture, validate the amount (failure means the rule is a
non-match), validate the phone number for airtime rules (failure likewise),
and otherwise produce the rule's record. -/
def tryRule (r : Rule) (block : List Char) : Option TxCore :=
  match searchFrom r.matchAt block with
  | none => none
  | some (amStr, nmRaw) =>
    match validate_amount amStr with
    | none => none
    | some a =>
      if r.category = TxCategory.airtime ∧ validate_phone_number (pyStrip nmRaw) = false
      then none
      else some ⟨r.txType, pyStrip nmRaw, a, r.category⟩

/-- The pattern loop over an ordered rule table: the first rule that
produces a record wins (`break`), a failing rule falls through to the next
(`continue`). -/
def classifyFrom : List Rule → List Char → Option TxCore
  | [], _ => none
  | r :: rs, block =>
    match tryRule r block with
    | some t => some t
    | none => classifyFrom rs block

/-- Classify one block against `transaction_patterns`. -/
def classifyBlock (block : List Char) : Option TxCore :=
  classifyFrom transaction_patterns block

/-! ### Block splitting and the extraction loop -/

/-- The literal sentinel token `[SAHAL]`. -/
def sentinel : List Char := ("[SAHAL]").toList

theorem matchLit_length :
    ∀ (lit cs r : List Char), matchLit lit cs = some r → cs.length = lit.length + r.length := by
  intro lit
  induction lit with
  | nil => intro cs r h; simp [matchLit] at h; simp [h]
  | cons l ls ih =>
    intro cs r h
    cases cs with
    | nil => simp [matchLit] at h
    | cons c cs =>
      simp only [matchLit] at h
      by_cases hc : c = l
      · rw [if_pos hc] at h
        have := ih cs r h
        simp [this]; omega
      · rw [if_neg hc] at h; exact absurd h (by simp)

/-- Python `text.split('[SAHAL]')`: cut the text at every non-overlapping
occurrence of the sentinel, scanning left to right.  The fuel argument
starts at the length of the text; every step consumes at least one
character (`matchLit_length` shows a sentinel match consumes seven), so
the fuel never runs out on the start value and the zero-fuel fallback is
unreachable. -/
def splitAux : Nat → List Char → List Char → List (List Char)
  | 0, cs, acc => [acc.reverse ++ cs]
  | _ + 1, [], acc => [acc.reverse]
  | fuel + 1, c :: cs, acc =>
    match matchLit sentinel (c :: cs) with
    | some rest => acc.reverse :: splitAux fuel rest []
    | none => splitAux fuel cs (c :: acc)

/-- Embeds `text.split('[SAHAL]')`. -/
def splitOnSentinel (text : List Char) : List (List Char) :=
  splitAux text.length text []

/-- Embeds `[b.strip() for b in text.split('[SAHAL]') if b.strip()]`: split on the
sentinel, strip each piece, keep the nonempty ones. -/
def blocksOf (text : List Char) : List (List Char) :=
  ((splitOnSentinel text).map pyStrip).filter fun b => !b.isEmpty

/-- A fully annotated transaction record of
`SAHALTransactionParser.extract_transactions`. -/
structure Transaction where
  txType : TxType
  name : List Char
  amount : ℚ
  category : TxCategory
  block_index : Nat
  raw_block : List Char
  date : Option PyDatetime
deriving DecidableEq

/-- The three outputs of `extract_transactions`: the record list, the
unmatched blocks, and the list of dates recovered across blocks (the list
from which the date range is derived). -/
structure ExtractResult where
  transactions : List Transaction
  unmatched_blocks : List (List Char)
  dates : List PyDatetime
deriving DecidableEq

/-- The per-block loop of `extract_transactions` (`enumerate(blocks, 1)`):
re-strip the block, extract its date independently of classification, then
classify; a classified block contributes a record, an unclassified one goes
to the unmatched list. -/
def extractLoop : Nat → List (List Char) → ExtractResult
  | _, [] => ⟨[], [], []⟩
  | i, b :: bs =>
    let b' := pyStrip b
    let rest := extractLoop (i + 1) bs
    let d := parse_date_from_text b'
    let newDates :=
      match d with
      | some dt => dt :: rest.dates
      | none => rest.dates
    match classifyBlock b' with
    | some t =>
      ⟨⟨t.txType, t.name, t.amount, t.category, i, b', d⟩ :: rest.transactions,
       rest.unmatched_blocks, newDates⟩
    | none => ⟨rest.transactions, b' :: rest.unmatched_blocks, newDates⟩

/-- Embeds `SAHALTransactionParser.extract_transactions`: empty text yields empty
results, otherwise split into blocks and run the per-block loop. -/
def extract_transactions (text : List Char) : ExtractResult :=
  if text = [] then ⟨[], [], []⟩ else extractLoop 1 (blocksOf text)

/-! ### The unguarded extractor of `sahal_grouped.py` -/

/-- The Python exception relevant here. -/
inductive PyErr where
  | valueError
deriving DecidableEq

/-- A record of `sahal_grouped.extract_transactions` (type, name, amount). -/
structure GTx where
  txType : TxType
  name : List Char
  amount : ℚ
deriving DecidableEq

/-- Embeds `float(...)` as the fallible call the grouped extractor performs without
a surrounding `try`: a parse failure raises `ValueError`. -/
def pyFloatExc (cs : List Char) : Except PyErr ℚ :=
  match pyFloat cs with
  | some a => Except.ok a
  | none => Except.error PyErr.valueError

/-- One arm of the grouped loop: on a match, `float` the amount (which may
raise and abort the whole extraction) and cons the record onto the result of
the remaining blocks. -/
def groupedArm (t : TxType) (nm : List Char) (am : List Char)
    (rest : Except PyErr (List GTx)) : Except PyErr (List GTx) :=
  match pyFloatExc am with
  | Except.error e => Except.error e
  | Except.ok a => rest.map fun l => ⟨t, nm, a⟩ :: l

/-- The block loop of `sahal_grouped.extract_transactions`: the same four
patterns in the same order, but with the unguarded `float(...)` call; a
block matching no pattern is silently skipped. -/
def grouped_extract_loop : List (List Char) → Except PyErr (List GTx)
  | [] => Except.ok []
  | b :: bs =>
    let b' := pyStrip b
    let rest := grouped_extract_loop bs
    match searchFrom p1At b' with
    | some (am, nm) => groupedArm TxType.sent (pyStrip nm) am rest
    | none =>
      match searchFrom p2At b' with
      | some (am, ph) => groupedArm TxType.sent ph am rest
      | none =>
        match searchFrom p3At b' with
        | some (am, nm) => groupedArm TxType.received (pyStrip nm) am rest
        | none =>
          match searchFrom p4At b' with
          | some (am, ph) => groupedArm TxType.received ph am rest
          | none => rest

/-- Embeds `sahal_grouped.extract_transactions` over already-cleaned text. -/
def grouped_extract_transactions (text : List Char) : Except PyErr (List GTx) :=
  grouped_extract_loop (blocksOf text)

/-! ### Aggregation (`sahal_dashboard.group_transactions`) -/

/-- The per-counterparty running statistics of the aggregation
`defaultdict` (`sahal_dashboard.group_transactions`; the identically updated
fields of `SAHALAnalyzer._create_dataframe`). -/
structure ContactAgg where
  sent : ℚ
  received : ℚ
  sent_count : Nat
  received_count : Nat
  sent_airtime : ℚ
  received_airtime : ℚ
  sent_person : ℚ
  received_person : ℚ
deriving DecidableEq

/-- The all-zero aggregate a fresh counterparty starts from. -/
def zeroAgg : ContactAgg := ⟨0, 0, 0, 0, 0, 0, 0, 0⟩

/-- Fold one record into one counterparty's aggregate: totals and counts by
direction, sub-totals by category, where every non-airtime category (person
and business alike) lands in the `person` sub-total via the `else` branch.
Amounts accumulate here with exact rational addition, the rounding-free
arithmetic the spec's invariants presume; the source performs these
additions on binary64 floats, and `applyTxF` below is the float-accurate
variant used to test the spec's sum identities against the program. -/
def applyTx (t : TxCore) (a : ContactAgg) : ContactAgg :=
  match t.txType with
  | TxType.sent =>
    let a1 := { a with sent := a.sent + t.amount, sent_count := a.sent_count + 1 }
    match t.category with
    | TxCategory.airtime => { a1 with sent_airtime := a1.sent_airtime + t.amount }
    | _ => { a1 with sent_person := a1.sent_person + t.amount }
  | TxType.received =>
    let a1 := { a with received := a.received + t.amount,
                       received_count := a.received_count + 1 }
    match t.category with
    | TxCategory.airtime => { a1 with received_airtime := a1.received_airtime + t.amount }
    | _ => { a1 with received_person := a1.received_person + t.amount }

/-- One fold step: update the record's own counterparty, leave the rest. -/
def aggStep (m : List Char → ContactAgg) (t : TxCore) : List Char → ContactAgg :=
  fun n => if n = t.name then applyTx t (m n) else m n

/-- Embeds `group_transactions` as the mapping from counterparty to aggregate
produced by folding the record list in order (the `defaultdict` holds
`zeroAgg` for every counterparty not yet seen). -/
def group_transactions (txs : List TxCore) : List Char → ContactAgg :=
  txs.foldl aggStep (fun _ => zeroAgg)

/-- Round half to even at the scaled integer, the model of Python 3
`round(x, 2)` on the exact rationals that stand in for the floats. -/
def roundHalfEven (q : ℚ) : ℤ :=
  let f := q.floor
  if q - f < 1 / 2 then f
  else if 1 / 2 < q - f then f + 1
  else if f % 2 = 0 then f else f + 1

/-- Embeds `round(x, 2)`. -/
def round2 (q : ℚ) : ℚ := (roundHalfEven (100 * q) : ℚ) / 100

/-- One row of the `group_transactions` DataFrame (lines 273-287 of
`sahal_dashboard.py`): each monetary field displays its aggregate rounded to
two decimals, and `Net` rounds the exact difference of the unrounded
`received` and `sent` totals. -/
structure GroupRow where
  name : List Char
  sentR : ℚ
  receivedR : ℚ
  net : ℚ
  sent_count : Nat
  received_count : Nat
  sent_airtimeR : ℚ
  sent_personR : ℚ
  received_airtimeR : ℚ
  received_personR : ℚ
deriving DecidableEq

/-- Build the DataFrame row of one counterparty from its aggregate. -/
def group_row (n : List Char) (a : ContactAgg) : GroupRow :=
  ⟨n, round2 a.sent, round2 a.received, round2 (a.received - a.sent),
   a.sent_count, a.received_count,
   round2 a.sent_airtime, round2 a.sent_person,
   round2 a.received_airtime, round2 a.received_person⟩

/-! ### Summary statistics (`SAHALAnalyzer.get_summary_stats`) -/

/-- The columns of one DataFrame row that the summary statistics consume:
the rounded `Sent` and `Received` totals and the `Total Transactions`
count (`sent_count + received_count`). -/
structure SummaryRow where
  sent : ℚ
  received : ℚ
  total_transactions : Nat
deriving DecidableEq

/-- The summary fields the claim concerns. -/
structure SummaryStats where
  total_sent : ℚ
  total_received : ℚ
  total_transactions : Nat
  avg_transaction_amount : ℚ
deriving DecidableEq

/-- Embeds `SAHALAnalyzer.get_summary_stats`, projected onto the claim's fields:
an empty DataFrame short-circuits to an empty dict (`none`); otherwise the
column sums and
`(total_sent + total_received) / total_transactions if total_transactions > 0 else 0`. -/
def get_summary_stats (df : List SummaryRow) : Option SummaryStats :=
  if df.isEmpty then none
  else
    let ts := (df.map fun r => r.sent).sum
    let tr := (df.map fun r => r.received).sum
    let tt := (df.map fun r => r.total_transactions).sum
    some ⟨ts, tr, tt, if 0 < tt then (ts + tr) / (tt : ℚ) else 0⟩

/-! ### IEEE-754 binary64 model

The Python source stores and accumulates monetary amounts as IEEE-754
binary64 floats.  Every finite float is an exact rational, so the model
represents a float by its exact value in `ℚ` and rounds the exact result of
each arithmetic operation back to 53 bits of significand with
round-to-nearest, ties-to-even — exactly the IEEE semantics of the
operation on the normal range (exponent over- and underflow, signed zero
and NaN do not arise at the values considered here and are outside the
model). -/

/-- Fueled floor of the base-2 logarithm of a natural number (fuel at least
the number itself suffices; `Nat.log2` itself is well-founded recursion,
which the kernel cannot evaluate). -/
def natLog2Aux : Nat → Nat → Nat
  | 0, _ => 0
  | fuel + 1, n => if n ≤ 1 then 0 else natLog2Aux fuel (n / 2) + 1

/-- Floor of the base-2 logarithm: for `1 ≤ n`, the unique `k` with
`2 ^ k ≤ n < 2 ^ (k + 1)`. -/
def natLog2 (n : Nat) : Nat := natLog2Aux n n

/-- Powers of two with integer exponent, as rationals. -/
def pow2 (e : ℤ) : ℚ :=
  if 0 ≤ e then ((2 : ℚ) ^ e.toNat) else 1 / ((2 : ℚ) ^ (-e).toNat)

/-- Floor of the base-2 logarithm of a positive rational `n / d`:
either `natLog2 n - natLog2 d` or one less, decided by an exact integer
comparison. -/
def floorLog2Q (q : ℚ) : ℤ :=
  let a := natLog2 q.num.toNat
  let b := natLog2 q.den
  if ((2 : ℤ) ^ b) * q.num ≥ ((2 : ℤ) ^ a) * (q.den : ℤ)
  then (a : ℤ) - (b : ℤ) else (a : ℤ) - (b : ℤ) - 1

/-- Round a positive rational to the nearest binary64 value: scale into
`[2 ^ 52, 2 ^ 53)`, round half to even, scale back. -/
def flPos (q : ℚ) : ℚ :=
  ((roundHalfEven (q / pow2 (floorLog2Q q - 52)) : ℚ)) * pow2 (floorLog2Q q - 52)

/-- Round a rational to the nearest IEEE-754 binary64 value (round to
nearest, ties to even). -/
def fl (q : ℚ) : ℚ :=
  if q = 0 then 0 else if q < 0 then -(flPos (-q)) else flPos q

/-- IEEE-754 binary64 addition of two representable values: the correct
rounding of their exact sum — the `+` the Python source performs on its
float amounts. -/
def fadd (x y : ℚ) : ℚ := fl (x + y)

/-- The fold step of the aggregation exactly as the Python source computes
it: identical to `applyTx` except that amounts accumulate with binary64
addition `fadd` instead of exact addition.  This is the arithmetic under
which the permutation-invariance and sub-total identities of the spec are
tested against the program. -/
def applyTxF (t : TxCore) (a : ContactAgg) : ContactAgg :=
  match t.txType with
  | TxType.sent =>
    let a1 := { a with sent := fadd a.sent t.amount, sent_count := a.sent_count + 1 }
    match t.category with
    | TxCategory.airtime => { a1 with sent_airtime := fadd a1.sent_airtime t.amount }
    | _ => { a1 with sent_person := fadd a1.sent_person t.amount }
  | TxType.received =>
    let a1 := { a with received := fadd a.received t.amount,
                       received_count := a.received_count + 1 }
    match t.category with
    | TxCategory.airtime => { a1 with received_airtime := fadd a1.received_airtime t.amount }
    | _ => { a1 with received_person := fadd a1.received_person t.amount }

/-- One fold step at the float level. -/
def aggStepF (m : List Char → ContactAgg) (t : TxCore) : List Char → ContactAgg :=
  fun n => if n = t.name then applyTxF t (m n) else m n

/-- `group_transactions` with the source's float arithmetic: the record
amounts are the exact values of the program's doubles and every
accumulation rounds to binary64. -/
def group_transactionsF (txs : List TxCore) : List Char → ContactAgg :=
  txs.foldl aggStepF (fun _ => zeroAgg)

/-- Three sent-to-person records for one counterparty whose amounts are the
doubles the program parses from `0.1`, `0.2`, `0.3` (each `fl` of the exact
decimal). -/
def floatRecordsFwd : List TxCore :=
  [⟨TxType.sent, ("Ali").toList, fl (1 / 10), TxCategory.person⟩,
   ⟨TxType.sent, ("Ali").toList, fl (2 / 10), TxCategory.person⟩,
   ⟨TxType.sent, ("Ali").toList, fl (3 / 10), TxCategory.person⟩]

/-- The same three records in reversed order. -/
def floatRecordsRev : List TxCore :=
  [⟨TxType.sent, ("Ali").toList, fl (3 / 10), TxCategory.person⟩,
   ⟨TxType.sent, ("Ali").toList, fl (2 / 10), TxCategory.person⟩,
   ⟨TxType.sent, ("Ali").toList, fl (1 / 10), TxCategory.person⟩]

/-- Three sent records for one counterparty mixing the airtime and person
categories; the amounts 1 and `10 ^ 16` are exactly representable doubles. -/
def floatRecordsMixed : List TxCore :=
  [⟨TxType.sent, ("Ali").toList, 1, TxCategory.airtime⟩,
   ⟨TxType.sent, ("Ali").toList, 1, TxCategory.person⟩,
   ⟨TxType.sent, ("Ali").toList, 10 ^ 16, TxCategory.person⟩]

/-! ### List and matcher helper lemmas -/

theorem dropWhile_idem (p : Char → Bool) :
    ∀ l : List Char, (l.dropWhile p).dropWhile p = l.dropWhile p := by
  intro l
  induction l with
  | nil => rfl
  | cons c t ih =>
    by_cases h : p c
    · simp [List.dropWhile_cons, h, ih]
    · simp [List.dropWhile_cons, h]

theorem dropWhile_append_singleton (p : Char → Bool) (c : Char) (hc : p c = false) :
    ∀ xs : List Char, (xs ++ [c]).dropWhile p = xs.dropWhile p ++ [c] := by
  intro xs
  induction xs with
  | nil => simp [List.dropWhile_cons, hc]
  | cons x t ih =>
    by_cases h : p x
    · simp [List.dropWhile_cons, h, ih]
    · simp [List.dropWhile_cons, h]

theorem stripR_cons (c : Char) (hc : isSpaceChar c = false) (t : List Char) :
    stripR (c :: t) = c :: stripR t := by
  simp [stripR, dropWhile_append_singleton isSpaceChar c hc]

theorem stripR_idem (l : List Char) : stripR (stripR l) = stripR l := by
  simp [stripR, dropWhile_idem]

theorem dropWhile_head_false (p : Char → Bool) (l : List Char) :
    l.dropWhile p = [] ∨ ∃ c t, l.dropWhile p = c :: t ∧ p c = false := by
  induction l with
  | nil => left; rfl
  | cons c t ih =>
    by_cases h : p c
    · simpa [List.dropWhile_cons, h] using ih
    · right; exact ⟨c, t, by simp [List.dropWhile_cons, h], by simpa using h⟩

theorem pyStrip_idem (l : List Char) : pyStrip (pyStrip l) = pyStrip l := by
  rcases dropWhile_head_false isSpaceChar l with h | ⟨c, t, h, hc⟩
  · simp [pyStrip, h, stripR]
  · simp only [pyStrip, h]
    rw [stripR_cons c hc t]
    rw [List.dropWhile_cons, hc]
    simp only [Bool.false_eq_true, if_false]
    rw [stripR_cons c hc (stripR t), stripR_idem]

theorem matchLit_self_append : ∀ (lit r : List Char), matchLit lit (lit ++ r) = some r := by
  intro lit
  induction lit with
  | nil => intro r; rfl
  | cons l ls ih => intro r; simp [matchLit, ih]

theorem matchLit_inv :
    ∀ (lit cs r : List Char), matchLit lit cs = some r → cs = lit ++ r := by
  intro lit
  induction lit with
  | nil => intro cs r h; simp [matchLit] at h; simp [h]
  | cons l ls ih =>
    intro cs r h
    cases cs with
    | nil => simp [matchLit] at h
    | cons c cs =>
      simp only [matchLit] at h
      by_cases hc : c = l
      · rw [if_pos hc] at h
        simp [hc, ih cs r h]
      · rw [if_neg hc] at h; exact absurd h (by simp)

theorem takeWhile_all_append (p : Char → Bool) :
    ∀ (xs : List Char) (y : Char) (ys : List Char),
      (∀ c ∈ xs, p c = true) → p y = false →
      (xs ++ y :: ys).takeWhile p = xs ∧ (xs ++ y :: ys).dropWhile p = y :: ys := by
  intro xs
  induction xs with
  | nil => intro y ys _ hy; simp [List.takeWhile_cons, List.dropWhile_cons, hy]
  | cons x t ih =>
    intro y ys hall hy
    have hx : p x = true := hall x (by simp)
    have := ih y ys (fun c hc => hall c (by simp [hc])) hy
    simp [List.takeWhile_cons, List.dropWhile_cons, hx, this.1, this.2]

theorem scanToParen_exact :
    ∀ (xs r : List Char), ('(' ∉ xs) → ('\n' ∉ xs) →
      scanToParen (xs ++ '(' :: r) = some (xs, r) := by
  intro xs
  induction xs with
  | nil => intro r _ _; simp [scanToParen]
  | cons x t ih =>
    intro r hp hn
    have hx1 : x ≠ '(' := by intro h; exact hp (by simp [h])
    have hx2 : x ≠ '\n' := by intro h; exact hn (by simp [h])
    simp only [List.cons_append, scanToParen, if_neg hx1, if_neg hx2, List.append_eq]
    rw [ih r (fun h => hp (by simp [h])) (fun h => hn (by simp [h]))]
    rfl

/-! ### Claim C2: a matched amount that fails `float` aborts the grouped
extractor but not the improved one -/

/-- Claim C2 (code bug): the spec promises that no single block — in
particular one whose matched amount substring fails numeric parsing — makes
extraction raise, but `sahal_grouped.extract_transactions` (like the
dashboard version) calls `float(...)` unguarded: on the block
`$. ayaad u dirtay John(` pattern 1 matches with amount capture `"."` and
`float('.')` raises `ValueError`, aborting the run.  Only
`sahal_improved.extract_transactions` validates the amount, treats the rule
as a non-match and files the block as unmatched. -/
theorem claim_C2 :
    grouped_extract_transactions (("[SAHAL]\n$. ayaad u dirtay John(").toList) =
      Except.error PyErr.valueError
    ∧ extract_transactions (("[SAHAL]\n$. ayaad u dirtay John(").toList) =
      ⟨[], [("$. ayaad u dirtay John(").toList], []⟩ := by
  constructor
  · rfl
  · decide

/-! ### Claim C3: invalid amounts make a rule a non-match -/

/-- Claim C3: when a rule's pattern matches a block but the extracted amount
substring fails decimal parsing or is non-positive (`validate_amount`
returns `none`), classification of the block continues with exactly the
remaining rules, so no record with that amount is produced; the boundary
strings `"0"` and `"-5"` are both rejected by the validator. -/
theorem claim_C3 :
    (∀ (r : Rule) (rs : List Rule) (b am nm : List Char),
        searchFrom r.matchAt b = some (am, nm) → validate_amount am = none →
        classifyFrom (r :: rs) b = classifyFrom rs b)
    ∧ validate_amount (("0").toList) = none
    ∧ validate_amount (("-5").toList) = none := by
  refine ⟨?_, by decide, by decide⟩
  intro r rs b am nm h1 h2
  simp [classifyFrom, tryRule, h1, h2]

/-- Witness for C3: on the block `$0 ayaad u dirtay X(`, rule 1 matches with
amount capture `"0"`, the validator rejects it, and classification falls
through to the remaining three rules. -/
theorem claim_C3_witness :
    searchFrom rule1.matchAt (("$0 ayaad u dirtay X(").toList) =
      some ((("0").toList), (("X").toList))
    ∧ validate_amount (("0").toList) = none
    ∧ classifyFrom (rule1 :: [rule2, rule3, rule4]) (("$0 ayaad u dirtay X(").toList) =
      classifyFrom [rule2, rule3, rule4] (("$0 ayaad u dirtay X(").toList) :=
  ⟨by decide, by decide,
   claim_C3.1 rule1 [rule2, rule3, rule4] (("$0 ayaad u dirtay X(").toList)
     (("0").toList) (("X").toList) (by decide) (by decide)⟩

/-! ### Claims C5 and C6: aggregation -/

/-- The additive footprint of one aggregate, used to reduce the fold to a
componentwise sum. -/
def aggTuple (a : ContactAgg) : ℚ × ℚ × ℚ × ℚ × ℚ × ℚ × Nat × Nat :=
  (a.sent, a.received, a.sent_airtime, a.received_airtime,
   a.sent_person, a.received_person, a.sent_count, a.received_count)

theorem aggTuple_inj {a b : ContactAgg} (h : aggTuple a = aggTuple b) : a = b := by
  cases a; cases b
  simp only [aggTuple, Prod.mk.injEq] at h
  simp [h.1, h.2.1, h.2.2.1, h.2.2.2.1, h.2.2.2.2.1, h.2.2.2.2.2.1,
        h.2.2.2.2.2.2.1, h.2.2.2.2.2.2.2]

theorem aggTuple_applyTx (t : TxCore) (a : ContactAgg) :
    aggTuple (applyTx t a) = aggTuple a + aggTuple (applyTx t zeroAgg) := by
  cases t with
  | mk ty nm am cat =>
    cases ty <;> cases cat <;>
      simp [applyTx, aggTuple, zeroAgg, Prod.mk_add_mk]

/-- The contribution of one record to one counterparty's tuple. -/
def contribTuple (t : TxCore) (n : List Char) : ℚ × ℚ × ℚ × ℚ × ℚ × ℚ × Nat × Nat :=
  if n = t.name then aggTuple (applyTx t zeroAgg) else 0

theorem foldl_agg_char :
    ∀ (l : List TxCore) (m : List Char → ContactAgg) (n : List Char),
      aggTuple ((l.foldl aggStep m) n) =
        aggTuple (m n) + (l.map fun t => contribTuple t n).sum := by
  intro l
  induction l with
  | nil => intro m n; simp
  | cons t l ih =>
    intro m n
    rw [List.foldl_cons, ih, List.map_cons, List.sum_cons, ← add_assoc]
    congr 1
    by_cases h : n = t.name
    · simp only [aggStep, if_pos h, contribTuple, if_pos h]
      exact aggTuple_applyTx t (m n)
    · simp [aggStep, if_neg h, contribTuple, if_neg h]

/-- Counterexample refuting claim C5 as stated about the program: the
source accumulates IEEE-754 doubles, whose addition is not associative, so
aggregation is not permutation-invariant.  Folding the amounts parsed from
`0.1`, `0.2`, `0.3` in that order gives the sent total
`5404319552844596 / 2 ^ 53` (the double printed `0.6000000000000001`),
while the reversed order gives `5404319552844595 / 2 ^ 53` (printed `0.6`);
the two aggregates differ.  Each step of the model was checked against
CPython float arithmetic. -/
theorem claim_C5_cex :
    floatRecordsFwd.Perm floatRecordsRev
    ∧ (group_transactionsF floatRecordsFwd (("Ali").toList)).sent =
        (5404319552844596 : ℚ) / 2 ^ 53
    ∧ (group_transactionsF floatRecordsRev (("Ali").toList)).sent =
        (5404319552844595 : ℚ) / 2 ^ 53
    ∧ group_transactionsF floatRecordsFwd (("Ali").toList) ≠
        group_transactionsF floatRecordsRev (("Ali").toList) := by
  refine ⟨by decide, by decide, by decide, by decide⟩

/-- Claim C5 (amended): folding any permutation of the same record sequence
in exact (rational) arithmetic — the idealized decimal semantics the spec's
invariants presume — produces the same per-counterparty aggregate: all
totals, per-category sub-totals and counts agree.  Under the program's
binary64 accumulation (`group_transactionsF`) the monetary sums can differ
across orders, so the unqualified claim fails (see the counterexample);
invariance of the sums holds exactly in the rounding-free model. -/
theorem claim_C5 :
    ∀ (l₁ l₂ : List TxCore), l₁.Perm l₂ →
      ∀ n, group_transactions l₁ n = group_transactions l₂ n := by
  intro l₁ l₂ h n
  apply aggTuple_inj
  rw [group_transactions, group_transactions, foldl_agg_char, foldl_agg_char]
  exact congrArg _ ((h.map fun t => contribTuple t n).sum_eq)

/-- Witness for C5 at a concrete permuted pair of record lists. -/
theorem claim_C5_witness :
    group_transactions
        [⟨TxType.sent, ("Ali").toList, 20, TxCategory.person⟩,
         ⟨TxType.received, ("Ali").toList, 5, TxCategory.person⟩,
         ⟨TxType.sent, ("Ali").toList, 3, TxCategory.airtime⟩]
        (("Ali").toList) =
      group_transactions
        [⟨TxType.sent, ("Ali").toList, 3, TxCategory.airtime⟩,
         ⟨TxType.received, ("Ali").toList, 5, TxCategory.person⟩,
         ⟨TxType.sent, ("Ali").toList, 20, TxCategory.person⟩]
        (("Ali").toList) :=
  claim_C5 _ _ (by decide) (("Ali").toList)

theorem foldl_agg_inv :
    ∀ (l : List TxCore) (m : List Char → ContactAgg),
      (∀ k, (m k).sent = (m k).sent_airtime + (m k).sent_person ∧
            (m k).received = (m k).received_airtime + (m k).received_person) →
      ∀ n, ((l.foldl aggStep m) n).sent =
              ((l.foldl aggStep m) n).sent_airtime + ((l.foldl aggStep m) n).sent_person ∧
           ((l.foldl aggStep m) n).received =
              ((l.foldl aggStep m) n).received_airtime + ((l.foldl aggStep m) n).received_person := by
  intro l
  induction l with
  | nil => intro m hm n; exact hm n
  | cons t l ih =>
    intro m hm n
    rw [List.foldl_cons]
    refine ih (aggStep m t) ?_ n
    intro k
    by_cases h : k = t.name
    · simp only [aggStep, if_pos h]
      obtain ⟨h1, h2⟩ := hm k
      cases t with
      | mk ty nm am cat =>
        cases ty <;> cases cat <;>
          simp [applyTx, h1, h2, add_assoc, add_comm, add_left_comm]
    · simpa [aggStep, if_neg h] using hm k

/-- Counterexample refuting claim C6 as stated about the program: with the
source's float accumulation the sent total need not equal the sum of the
sent sub-totals.  For one counterparty with amounts 1 (airtime), 1 (person)
and `10 ^ 16` (person) — all exactly representable doubles — the total
accumulates `(0 + 1) + 1 + 10 ^ 16 = 10 ^ 16 + 2` with no rounding, while
the sub-totals hold 1 and `fl (1 + 10 ^ 16) = 10 ^ 16` (the odd
intermediate rounds away), summing to `10 ^ 16 + 1`.  Each step of the
model was checked against CPython float arithmetic. -/
theorem claim_C6_cex :
    (group_transactionsF floatRecordsMixed (("Ali").toList)).sent = (10 : ℚ) ^ 16 + 2
    ∧ (group_transactionsF floatRecordsMixed (("Ali").toList)).sent_airtime +
        (group_transactionsF floatRecordsMixed (("Ali").toList)).sent_person =
        (10 : ℚ) ^ 16 + 1
    ∧ (group_transactionsF floatRecordsMixed (("Ali").toList)).sent ≠
        (group_transactionsF floatRecordsMixed (("Ali").toList)).sent_airtime +
        (group_transactionsF floatRecordsMixed (("Ali").toList)).sent_person := by
  refine ⟨by decide, by decide, by decide⟩

/-- Claim C6 (amended): for every aggregate produced by folding any record
sequence in exact (rational) arithmetic — the rounding-free semantics the
spec's "no rounding drift" invariant presumes — the sent total is exactly
the sum of the sent sub-totals (airtime plus person, the bucket that also
receives business records), symmetrically for received, and the displayed
`Net` is the rounding of the exact difference `received - sent` of the
unrounded totals.  Under the program's binary64 accumulation
(`group_transactionsF`) the sub-total identity can drift (see the
counterexample), so the identities hold exactly only in this model. -/
theorem claim_C6 :
    ∀ (l : List TxCore) (n : List Char),
      (group_transactions l n).sent =
        (group_transactions l n).sent_airtime + (group_transactions l n).sent_person
      ∧ (group_transactions l n).received =
        (group_transactions l n).received_airtime + (group_transactions l n).received_person
      ∧ (group_row n (group_transactions l n)).net =
        round2 ((group_transactions l n).received - (group_transactions l n).sent) := by
  intro l n
  have h := foldl_agg_inv l (fun _ => zeroAgg) (fun k => by simp [zeroAgg]) n
  exact ⟨h.1, h.2, rfl⟩

/-! ### Claims C9 and the classification invariant for airtime -/

theorem classifyFrom_mem :
    ∀ (rs : List Rule) (b : List Char) (t : TxCore),
      classifyFrom rs b = some t → ∃ r ∈ rs, tryRule r b = some t := by
  intro rs
  induction rs with
  | nil => intro b t h; simp [classifyFrom] at h
  | cons r rs ih =>
    intro b t h
    simp only [classifyFrom] at h
    cases h' : tryRule r b with
    | some t' =>
      rw [h'] at h
      exact ⟨r, by simp, by simpa [← Option.some_inj.mp h] using h'⟩
    | none =>
      rw [h'] at h
      obtain ⟨r', hr', ht'⟩ := ih b t h
      exact ⟨r', by simp [hr'], ht'⟩

theorem tryRule_fields {r : Rule} {b : List Char} {t : TxCore}
    (h : tryRule r b = some t) :
    t.category = r.category ∧
    (t.category = TxCategory.airtime → validate_phone_number t.name = true) := by
  rw [tryRule] at h
  split at h
  · exact absurd h (by simp)
  · split at h
    · exact absurd h (by simp)
    · split at h
      · exact absurd h (by simp)
      · rename_i hcond
        rw [Option.some_inj] at h
        subst h
        refine ⟨rfl, fun hcat => ?_⟩
        by_contra hph
        exact hcond ⟨hcat, by simpa using hph⟩

/-- Claim C9: every airtime record the classifier produces carries a
digits-only counterparty of length at least nine; the spec's scenario-3
block with the twelve-digit number yields exactly its one record, and the
variant with the five-digit number `12345` matches no rule and lands in
the unmatched list. -/
theorem claim_C9 :
    (∀ (b : List Char) (t : TxCore),
        classifyBlock b = some t → t.category = TxCategory.airtime →
        9 ≤ t.name.length ∧ t.name.all Char.isDigit = true)
    ∧ extract_transactions (("[SAHAL]\nWaxaad $10.00 ugu shubtay 252907123456").toList) =
        ⟨[⟨TxType.sent, ("252907123456").toList, 10, TxCategory.airtime, 1,
           ("Waxaad $10.00 ugu shubtay 252907123456").toList, none⟩], [], []⟩
    ∧ extract_transactions (("[SAHAL]\nWaxaad $10.00 ugu shubtay 12345").toList) =
        ⟨[], [("Waxaad $10.00 ugu shubtay 12345").toList], []⟩ := by
  refine ⟨?_, by decide, by decide⟩
  intro b t h hcat
  obtain ⟨r, _, hr⟩ := classifyFrom_mem transaction_patterns b t h
  have := (tryRule_fields hr).2 hcat
  simpa [validate_phone_number, Bool.and_eq_true, decide_eq_true_eq] using this

/-- Witness for C9: the invariant applied to the concrete scenario-3 block. -/
theorem claim_C9_witness :
    9 ≤ (("252907123456").toList).length ∧
    (("252907123456").toList).all Char.isDigit = true :=
  claim_C9.1 (("Waxaad $10.00 ugu shubtay 252907123456").toList)
    ⟨TxType.sent, ("252907123456").toList, 10, TxCategory.airtime⟩
    (by decide) (by decide)

/-! ### Claim C10: the average never divides by zero -/

/-- Claim C10: whenever `get_summary_stats` produces statistics, the average
transaction amount is zero when the total transaction count is zero, and
otherwise equals `(total_sent + total_received) / total_transactions` (stated
multiplicatively to exhibit the division by a nonzero denominator). -/
theorem claim_C10 :
    ∀ (df : List SummaryRow) (s : SummaryStats), get_summary_stats df = some s →
      (s.total_transactions = 0 → s.avg_transaction_amount = 0)
      ∧ (s.total_transactions ≠ 0 →
          s.avg_transaction_amount * (s.total_transactions : ℚ) =
            s.total_sent + s.total_received) := by
  intro df s h
  rw [get_summary_stats] at h
  split at h
  · exact absurd h (by simp)
  · rw [Option.some_inj] at h
    subst h
    constructor
    · intro h0
      simp only at h0 ⊢
      rw [if_neg (by omega)]
    · intro h0
      simp only at h0 ⊢
      rw [if_pos (Nat.pos_of_ne_zero h0)]
      have hne : (((df.map fun r => r.total_transactions).sum : ℕ) : ℚ) ≠ 0 :=
        Nat.cast_ne_zero.mpr h0
      exact div_mul_cancel₀ _ hne

/-- Witness for C10: a single zero-count row takes the zero branch, and a
row with three transactions totalling 15 has average 5. -/
theorem claim_C10_witness :
    (SummaryStats.mk 0 0 0 0).avg_transaction_amount = 0
    ∧ (SummaryStats.mk 10 5 3 5).avg_transaction_amount * ((SummaryStats.mk 10 5 3 5).total_transactions : ℚ) =
        (SummaryStats.mk 10 5 3 5).total_sent + (SummaryStats.mk 10 5 3 5).total_received :=
  ⟨(claim_C10 [⟨0, 0, 0⟩] ⟨0, 0, 0, 0⟩ (by decide)).1 rfl,
   (claim_C10 [⟨10, 5, 3⟩] ⟨10, 5, 3, 5⟩ (by decide)).2 (by decide)⟩

/-! ### Claim C7: date extraction order and 12-hour conversion -/

theorem date1Search_nil : searchFrom date1MatchAt [] = none := by decide

/-- Claim C7: `parse_date_from_text` tries the weekday-banner format first
and the `Tar:` format second and returns the first successful parse — when
the banner pattern matches and its calendar values construct, the result is
that datetime no matter what else the block contains; the 12-hour clock
converts `12 AM` to hour 0, keeps `12 PM` at 12 and adds 12 to every other
PM hour; and when the banner match carries invalid calendar values and the
`Tar:` pattern yields nothing, the block simply has no date rather than an
error.  (The function takes only the block's text, independent of the
classifier's outcome.) -/
theorem claim_C7 :
    (∀ (text : List Char) (g : Date1Groups) (dt : PyDatetime),
        searchFrom date1MatchAt text = some g → mkDate1 g = some dt →
        parse_date_from_text text = some dt)
    ∧ convert12 12 false = 0
    ∧ convert12 12 true = 12
    ∧ (∀ h : Nat, h ≠ 12 → convert12 h true = h + 12)
    ∧ (∀ (text : List Char) (g : Date1Groups),
        searchFrom date1MatchAt text = some g → mkDate1 g = none →
        tar_only_date text = none → parse_date_from_text text = none) := by
  refine ⟨?_, by simp [convert12], by simp [convert12], ?_, ?_⟩
  · intro text g dt h1 h2
    cases text with
    | nil => rw [date1Search_nil] at h1; exact absurd h1 (by simp)
    | cons c cs => simp [parse_date_from_text, h1, h2]
  · intro h hne
    simp [convert12, hne]
  · intro text g h1 h2 h3
    cases text with
    | nil => rw [date1Search_nil] at h1; exact absurd h1 (by simp)
    | cons c cs => simp [parse_date_from_text, h1, h2, h3]

/-- Witness for C7: a block carrying both formats parses to the banner
datetime; `11 PM` becomes hour 23; a banner match naming February 30 with no
`Tar:` fallback yields no date. -/
theorem claim_C7_witness :
    parse_date_from_text (("Tuesday, October 17, 2023 路 11:17 AM Tar: 01/02/03 04:05:06").toList) =
      some ⟨2023, 10, 17, 11, 17, 0⟩
    ∧ convert12 11 true = 11 + 12
    ∧ parse_date_from_text (("Tuesday, February 30, 2023 路 11:17 AM").toList) = none :=
  ⟨claim_C7.1 _ ⟨10, 17, ⟨2023, 11, 17, false, (" Tar: 01/02/03 04:05:06").toList⟩⟩
     ⟨2023, 10, 17, 11, 17, 0⟩ (by decide) (by decide),
   claim_C7.2.2.2.1 11 (by decide),
   claim_C7.2.2.2.2 _ ⟨2, 30, ⟨2023, 11, 17, false, []⟩⟩ (by decide) (by decide) (by decide)⟩

/-! ### Claim C1: rule priority and the sent-to-person rule -/

theorem isAmtChar_ne_space {c : Char} (h : isAmtChar c = true) : c ≠ ' ' := by
  intro hc; subst hc; exact absurd h (by decide)

theorem lazyCapParen_exact (N rest : List Char) (hN : N ≠ [])
    (hp : '(' ∉ N) (hn : '\n' ∉ N) :
    lazyCapParen (N ++ '(' :: rest) = some (N, rest) := by
  cases N with
  | nil => exact absurd rfl hN
  | cons n0 N' =>
    have hn0 : n0 ≠ '\n' := fun h => hn (by simp [h])
    simp only [List.cons_append, lazyCapParen, if_neg hn0]
    rw [scanToParen_exact N' rest (fun h => hp (by simp [h])) (fun h => hn (by simp [h]))]
    rfl

theorem amountCap_exact (A tail : List Char) (hA : ∀ c ∈ A, isAmtChar c = true)
    (hne : A ≠ []) :
    amountCap (A ++ ' ' :: tail) = some (A, ' ' :: tail) := by
  obtain ⟨tw, dw⟩ := takeWhile_all_append isAmtChar A ' ' tail hA (by decide)
  simp only [amountCap, tw, dw]
  rw [if_neg (by simpa using hne)]

theorem p1Body_exact (A N rest : List Char) (hA : ∀ c ∈ A, isAmtChar c = true)
    (hne : A ≠ []) (hN : N ≠ []) (hp : '(' ∉ N) (hn : '\n' ∉ N) :
    p1Body (A ++ ((" ayaad u dirtay ").toList ++ (N ++ ('(' :: rest)))) = some (A, N) := by
  have h1 : amountCap (A ++ ((" ayaad u dirtay ").toList ++ (N ++ ('(' :: rest)))) =
      some (A, (" ayaad u dirtay ").toList ++ (N ++ ('(' :: rest))) :=
    amountCap_exact A (("ayaad u dirtay ").toList ++ (N ++ ('(' :: rest))) hA hne
  simp only [p1Body, h1, Option.some_bind, matchLit_self_append,
             lazyCapParen_exact N rest hN hp hn, Option.map_some']

theorem p1At_exact (A N rest : List Char) (hA : ∀ c ∈ A, isAmtChar c = true)
    (hne : A ≠ []) (hN : N ≠ []) (hp : '(' ∉ N) (hn : '\n' ∉ N) :
    p1At ('$' :: (A ++ ((" ayaad u dirtay ").toList ++ (N ++ ('(' :: rest))))) =
      some (A, N) := by
  cases A with
  | nil => exact absurd rfl hne
  | cons a0 A' =>
    have ha0 : a0 ≠ ' ' := isAmtChar_ne_space (hA a0 (by simp))
    simp only [p1At, if_pos rfl, List.cons_append, p1Dollar, if_neg ha0]
    have := p1Body_exact (a0 :: A') N rest hA hne hN hp hn
    simpa [List.cons_append] using this

theorem searchFrom_head {f : List Char → Option α} {c : Char} {cs : List Char}
    {r : α} (h : f (c :: cs) = some r) : searchFrom f (c :: cs) = some r := by
  simp [searchFrom, h]

/-- Claim C1: the rule table is a priority order — when every rule before
`r` fails on a block and `r` produces a record, classification returns that
record whatever rules follow (they are never consulted); in particular every
valid sent-to-person block `\$A ayaad u dirtay N(...` whose amount string
validates to `a` and whose name `N` is a newline- and parenthesis-free
trimmed string classifies to exactly the one record
`{sent, person, N, a}`. -/
theorem claim_C1 :
    (∀ (pre post : List Rule) (r : Rule) (b : List Char) (t : TxCore),
        (∀ r' ∈ pre, tryRule r' b = none) → tryRule r b = some t →
        classifyFrom (pre ++ r :: post) b = some t)
    ∧ (∀ (A N rest : List Char) (a : ℚ),
        (∀ c ∈ A, isAmtChar c = true) → validate_amount A = some a →
        N ≠ [] → '(' ∉ N → '\n' ∉ N → pyStrip N = N →
        classifyBlock ('$' :: (A ++ ((" ayaad u dirtay ").toList ++ (N ++ ('(' :: rest))))) =
          some ⟨TxType.sent, N, a, TxCategory.person⟩) := by
  constructor
  · intro pre
    induction pre with
    | nil =>
      intro post r b t _ hr
      simp [classifyFrom, hr]
    | cons p pre ih =>
      intro post r b t hpre hr
      have hp : tryRule p b = none := hpre p (by simp)
      simp only [List.cons_append, classifyFrom, hp]
      exact ih post r b t (fun r' h => hpre r' (by simp [h])) hr
  · intro A N rest a hA hv hN hp hn hstrip
    have hne : A ≠ [] := by
      intro h
      rw [h, show validate_amount [] = none from by decide] at hv
      exact Option.noConfusion hv
    have hsearch :
        searchFrom p1At ('$' :: (A ++ ((" ayaad u dirtay ").toList ++ (N ++ ('(' :: rest))))) =
          some (A, N) :=
      searchFrom_head (p1At_exact A N rest hA hne hN hp hn)
    simp only [classifyBlock, transaction_patterns, classifyFrom, tryRule, rule1,
               hsearch, hv, hstrip]
    rw [if_neg (by simp)]

/-- Witness for C1: a block matching both the sent-to-person and the
received-from-person patterns classifies by the first rule; a concrete
valid sent-to-person block yields its single record. -/
theorem claim_C1_witness :
    classifyFrom ([] ++ rule1 :: [rule2, rule3, rule4])
        (("$5 ayaad u dirtay A( Waxaad $3 ka heshay B(").toList) =
      some ⟨TxType.sent, ("A").toList, 5, TxCategory.person⟩
    ∧ classifyBlock
        ('$' :: ((("50.00").toList) ++
          ((" ayaad u dirtay ").toList ++ ((("John Doe").toList) ++ ('(' :: []))))) =
        some ⟨TxType.sent, ("John Doe").toList, 50, TxCategory.person⟩ :=
  ⟨claim_C1.1 [] [rule2, rule3, rule4] rule1
     (("$5 ayaad u dirtay A( Waxaad $3 ka heshay B(").toList)
     ⟨TxType.sent, ("A").toList, 5, TxCategory.person⟩ (by simp) (by decide),
   claim_C1.2 (("50.00").toList) (("John Doe").toList) [] 50
     (by decide) (by decide) (by decide) (by decide) (by decide) (by decide)⟩

/-! ### Claim C8: `clean_input` and idempotence -/

theorem noBanner_sub_id :
    ∀ (fuel : Nat) (cs : List Char), noBannerIn cs = true → bannerSubAux fuel cs = cs := by
  intro fuel
  induction fuel with
  | zero => intro cs _; rfl
  | succ f ih =>
    intro cs h
    cases cs with
    | nil => rfl
    | cons c cs =>
      simp only [noBannerIn, Bool.and_eq_true, Option.isNone_iff_eq_none] at h
      simp only [bannerSubAux, h.1]
      rw [ih cs h.2]

theorem noBanner_bannerSub_id (cs : List Char) (h : noBannerIn cs = true) :
    bannerSub cs = cs :=
  noBanner_sub_id cs.length cs h

/-- Counterexample refuting claim C8 as stated: `clean_input` is not
idempotent.  Removing the first banner match of
`MonMonday, 2024 路 1:11 AMday, 2024 路 1:11 AM` splices the surrounding text
into the new banner `Monday, 2024 路 1:11 AM`, which the single
`re.sub` pass never revisits; cleaning a second time erases it. -/
theorem claim_C8_cex :
    clean_input (clean_input (("MonMonday, 2024 路 1:11 AMday, 2024 路 1:11 AM").toList)) ≠
      clean_input (("MonMonday, 2024 路 1:11 AMday, 2024 路 1:11 AM").toList) := by decide

/-- Claim C8 (amended): normalizing the empty input yields the empty string,
and `normalize(normalize x) = normalize x` for every `x` whose normalized
form contains no banner-pattern match — the substitution pass can splice
adjacent text into a fresh banner match, and only on such inputs does
idempotence fail. -/
theorem claim_C8 :
    clean_input [] = []
    ∧ ∀ text : List Char, noBannerIn (clean_input text) = true →
        clean_input (clean_input text) = clean_input text := by
  refine ⟨rfl, ?_⟩
  intro text h
  by_cases hy : clean_input text = []
  · rw [hy]; rfl
  · rw [clean_input, if_neg hy, noBanner_bannerSub_id _ h]
    by_cases ht : text = []
    · subst ht; exact absurd rfl hy
    · rw [clean_input, if_neg ht]
      exact pyStrip_idem _

/-- Witness for C8: cleaning is idempotent on an input whose cleaned form
carries no banner match. -/
theorem claim_C8_witness :
    clean_input [] = []
    ∧ clean_input (clean_input (("  hello world  ").toList)) =
        clean_input (("  hello world  ").toList) :=
  ⟨claim_C8.1, claim_C8.2 (("  hello world  ").toList) (by decide)⟩

/-! ### Claim C4: which pattern the extracted dates come from -/

theorem isDigit_ne_newline {c : Char} (h : c.isDigit = true) : c ≠ '\n' := by
  intro hc; subst hc; exact absurd h (by decide)

theorem matchDigitsExact_inv :
    ∀ (n acc : Nat) (cs : List Char) (v : Nat) (r : List Char),
      matchDigitsExact n acc cs = some (v, r) →
      ∃ ds, cs = ds ++ r ∧ ∀ c ∈ ds, c.isDigit = true := by
  intro n
  induction n with
  | zero =>
    intro acc cs v r h
    simp only [matchDigitsExact, Option.some_inj, Prod.mk.injEq] at h
    exact ⟨[], by simp [h.2], by simp⟩
  | succ n ih =>
    intro acc cs v r h
    cases cs with
    | nil => simp [matchDigitsExact] at h
    | cons c cs =>
      simp only [matchDigitsExact] at h
      by_cases hc : c.isDigit
      · rw [if_pos hc] at h
        obtain ⟨ds, hcs, hds⟩ := ih _ cs v r h
        exact ⟨c :: ds, by simp [hcs], by
          intro x hx
          rcases List.mem_cons.mp hx with hx | hx
          · simpa [hx] using hc
          · exact hds x hx⟩
      · rw [if_neg hc] at h; exact absurd h (by simp)

theorem tryTable_inv :
    ∀ (tbl : List (List Char × Nat)) (cs : List Char) (n : Nat) (r : List Char),
      tryTable tbl cs = some (n, r) → ∃ lit, (lit, n) ∈ tbl ∧ cs = lit ++ r := by
  intro tbl
  induction tbl with
  | nil => intro cs n r h; simp [tryTable] at h
  | cons p tbl ih =>
    intro cs n r h
    obtain ⟨lit, m⟩ := p
    simp only [tryTable] at h
    cases hm : matchLit lit cs with
    | some r' =>
      rw [hm] at h
      simp only [Option.some_inj, Prod.mk.injEq] at h
      exact ⟨lit, by simp [h.1], by rw [← h.2]; exact matchLit_inv lit cs r' hm⟩
    | none =>
      rw [hm] at h
      obtain ⟨lit', hmem, hcs⟩ := ih cs n r h
      exact ⟨lit', by simp [hmem], hcs⟩

theorem month_table_no_newline : ∀ p ∈ month_table, '\n' ∉ p.1 := by decide

theorem lazyTime_of_timeTail :
    ∀ (pre suf : List Char) (g : TimeGroups), (∀ c ∈ pre, c ≠ '\n') →
      timeTail suf = some g → (lazyTime (pre ++ suf)).isSome = true := by
  intro pre
  induction pre with
  | nil =>
    intro suf g _ hg
    cases suf with
    | nil =>
      rw [show timeTail [] = none from by decide] at hg
      exact Option.noConfusion hg
    | cons c cs => simp [lazyTime, hg]
  | cons p pre ih =>
    intro suf g hpre hg
    simp only [List.cons_append, lazyTime]
    cases h : timeTail (p :: (pre ++ suf)) with
    | some g' => simp
    | none =>
      have hp : p ≠ '\n' := hpre p (by simp)
      rw [if_neg hp]
      exact ih suf g (fun c hc => hpre c (by simp [hc])) hg

theorem dayBranch_inv (n : Nat) (cs : List Char) (d : Nat) (g : TimeGroups)
    (h : dayBranch n cs = some (d, g)) :
    ∃ ds r2, cs = ds ++ (',' :: ' ' :: r2) ∧ (∀ c ∈ ds, c.isDigit = true) ∧
      timeTail r2 = some g := by
  rw [dayBranch] at h
  simp only [Option.bind_eq_some, Option.map_eq_some'] at h
  obtain ⟨⟨d', r1⟩, h1, r2, h2, g', h3, h4⟩ := h
  obtain ⟨ds, hcs, hds⟩ := matchDigitsExact_inv n 0 cs d' r1 h1
  have hr1 : r1 = ',' :: ' ' :: r2 := matchLit_inv ((", ").toList) r1 r2 h2
  simp only [Prod.mk.injEq] at h4
  refine ⟨ds, r2, ?_, hds, ?_⟩
  · rw [hcs, hr1]
  · rw [h3, h4.2]

theorem dayTimePart_inv (cs : List Char) (d : Nat) (g : TimeGroups)
    (h : dayTimePart cs = some (d, g)) :
    ∃ ds r2, cs = ds ++ (',' :: ' ' :: r2) ∧ (∀ c ∈ ds, c.isDigit = true) ∧
      timeTail r2 = some g := by
  rw [dayTimePart] at h
  cases h2 : dayBranch 2 cs with
  | some p =>
    rw [h2] at h
    rw [Option.some_inj] at h
    exact dayBranch_inv 2 cs d g (by rw [h2, h])
  | none =>
    rw [h2] at h
    exact dayBranch_inv 1 cs d g h

theorem date1_implies_banner (cs : List Char) (g : Date1Groups)
    (h : date1MatchAt cs = some g) : (bannerMatchAt cs).isSome = true := by
  rw [date1MatchAt] at h
  simp only [Option.bind_eq_some, Option.map_eq_some'] at h
  obtain ⟨⟨w, r1⟩, h1, r2, h2, ⟨m, r3⟩, h3, r4, h4, ⟨d, g'⟩, h5, h6⟩ := h
  simp only [bannerMatchAt, h1, Option.some_bind, h2]
  obtain ⟨mlit, hmem, hr2⟩ := tryTable_inv month_table r2 m r3 h3
  have hr3 : r3 = ' ' :: r4 := matchLit_inv ([' ']) r3 r4 h4
  obtain ⟨ds, r5, hr4, hds, htime⟩ := dayTimePart_inv r4 d g' h5
  have hpre : ∀ c ∈ mlit ++ ' ' :: (ds ++ [',', ' ']), c ≠ '\n' := by
    intro c hc
    rcases List.mem_append.mp hc with hc | hc
    · intro heq; subst heq; exact month_table_no_newline (mlit, m) hmem hc
    · rcases List.mem_cons.mp hc with hc | hc
      · subst hc; decide
      · rcases List.mem_append.mp hc with hc | hc
        · exact isDigit_ne_newline (hds c hc)
        · rcases List.mem_cons.mp hc with hc | hc
          · subst hc; decide
          · simp only [List.mem_singleton] at hc; subst hc; decide
  have hsplit : r2 = (mlit ++ ' ' :: (ds ++ [',', ' '])) ++ r5 := by
    rw [hr2, hr3, hr4]
    simp [List.append_assoc, List.cons_append]
  rw [hsplit]
  exact lazyTime_of_timeTail _ r5 g' hpre htime

theorem noBanner_no_date1 :
    ∀ cs : List Char, noBannerIn cs = true → searchFrom date1MatchAt cs = none := by
  intro cs
  induction cs with
  | nil => intro _; exact date1Search_nil
  | cons c cs ih =>
    intro h
    simp only [noBannerIn, Bool.and_eq_true, Option.isNone_iff_eq_none] at h
    simp only [searchFrom]
    cases hd : date1MatchAt (c :: cs) with
    | some g =>
      have hb := date1_implies_banner _ g hd
      rw [h.1] at hb
      exact absurd hb (by simp)
    | none => exact ih h.2

theorem parse_date_tar_only (b : List Char) (h : noBannerIn b = true) :
    parse_date_from_text b = tar_only_date b := by
  cases b with
  | nil =>
    rw [show tar_only_date ([] : List Char) = none from by decide]
    rfl
  | cons c cs =>
    rw [parse_date_from_text, if_neg (by simp), noBanner_no_date1 _ h]

theorem extractLoop_dates :
    ∀ (i : Nat) (bs : List (List Char)),
      (extractLoop i bs).dates = bs.filterMap fun b => parse_date_from_text (pyStrip b) := by
  intro i bs
  induction bs generalizing i with
  | nil => rfl
  | cons b bs ih =>
    simp only [extractLoop, List.filterMap_cons]
    cases hd : parse_date_from_text (pyStrip b) with
    | some dt => cases hc : classifyBlock (pyStrip b) <;> simp [hd, hc, ih]
    | none => cases hc : classifyBlock (pyStrip b) <;> simp [hd, hc, ih]

theorem blocksOf_strip (t : List Char) : ∀ b ∈ blocksOf t, pyStrip b = b := by
  intro b hb
  simp only [blocksOf, List.mem_filter, List.mem_map] at hb
  obtain ⟨⟨b0, _, rfl⟩, _⟩ := hb
  exact pyStrip_idem b0

/-- Counterexample refuting claim C4 as stated: cleaning the input
`[SAHAL]\nMonMonday, October 17, 2023 路 11:17 AMday, October 17, 2023 路 11:17 AM`
splices a fresh banner into the cleaned text, so the pipeline's single block
still yields a timestamp through the weekday-banner date format — the one
date in the date range does not come from the `Tar:` pattern (which matches
nothing in that block). -/
theorem claim_C4_cex :
    extract_transactions (clean_input
        (("[SAHAL]\nMonMonday, October 17, 2023 路 11:17 AMday, October 17, 2023 路 11:17 AM").toList)) =
      ⟨[], [("Monday, October 17, 2023 路 11:17 AM").toList], [⟨2023, 10, 17, 11, 17, 0⟩]⟩
    ∧ tar_only_date (("Monday, October 17, 2023 路 11:17 AM").toList) = none
    ∧ (extract_transactions (clean_input
        (("[SAHAL]\nMonMonday, October 17, 2023 路 11:17 AMday, October 17, 2023 路 11:17 AM").toList))).dates ≠
      (blocksOf (clean_input
        (("[SAHAL]\nMonMonday, October 17, 2023 路 11:17 AMday, October 17, 2023 路 11:17 AM").toList))).filterMap
        tar_only_date := by
  refine ⟨by decide, by decide, by decide⟩

/-- Claim C4 (amended): `clean_input` removes the banner matches of its
input, but one substitution pass can splice adjacent text into a new banner
match; whenever no block of the cleaned text contains a banner-pattern
match, no block yields a timestamp via the weekday-banner format — every
date the extraction collects for the date range is exactly a `Tar:`-pattern
date (pattern 1 is a sub-shape of the banner pattern, so a banner-free
block cannot satisfy it). -/
theorem claim_C4 :
    ∀ text : List Char,
      (∀ b ∈ blocksOf (clean_input text), noBannerIn b = true) →
      (extract_transactions (clean_input text)).dates =
        (blocksOf (clean_input text)).filterMap tar_only_date := by
  intro text h
  by_cases hc : clean_input text = []
  · rw [hc]; decide
  · rw [extract_transactions, if_neg hc, extractLoop_dates]
    refine List.filterMap_congr ?_
    intro b hb
    rw [blocksOf_strip _ b hb]
    exact parse_date_tar_only b (h b hb)

/-- Witness for C4: on an input whose cleaned blocks carry no banner match,
the collected dates coincide with the `Tar:`-pattern dates. -/
theorem claim_C4_witness :
    (extract_transactions (clean_input (("[SAHAL]\nAqbalay. Tar: 17/10/23 13:35:59").toList))).dates =
      (blocksOf (clean_input (("[SAHAL]\nAqbalay. Tar: 17/10/23 13:35:59").toList))).filterMap
        tar_only_date :=
  claim_C4 (("[SAHAL]\nAqbalay. Tar: 17/10/23 13:35:59").toList) (by decide)

end Sahal
